import Mathlib

/-!
Verification of the modemmanager decoding layer.

Shallow embedding of the dynamic value-decoding and error-translation layer
of the `modemmanager` Go package, together with proofs about the embedded
definitions.

Modelling conventions:
* A D-Bus wire value (`dbus.Variant.Value()`, a Go `interface{}` over the
  small set of wire-representable kinds) is the closed variant type
  `WireValue`.
* Go errors carry only their message text here, as `GoErr := String`; only
  presence and first-occurrence of errors matter to the decoding layer.
  (The error-classifier component models the error chain separately, see
  `GoError` further below.)
* Go byte slices (`net.IP`, `net.IPMask`) are `List Nat` (each entry a
  byte); a nil Go slice is modelled as `[]` for these, since the program
  never distinguishes a nil from an empty IP/mask byte slice.  Composite
  slices whose nil-ness is observable in the claims (`[]Port`,
  `[]dbus.ObjectPath`, the nested properties map) are `Option` values with
  `none` for Go `nil`.
* Go `float64` values are carried opaquely as their IEEE-754 bit pattern
  (`Nat`); the program only stores and copies them, never computes with
  them.
* A Go `map[string]dbus.Variant` is an association list
  `List (String × WireValue)`; `for k, v := range m` iterates the entries
  in list order.  Where a claim is about iteration-order independence, the
  theorem quantifies over permutations of the entry list.
-/

/-- Go errors, modelled by their message text. -/
abbrev GoErr := String

/-- A Port is a modem port (`Port` in the source); the type code field (Go `PortType`, an `int`) is `Type'` since `Type` is reserved in Lean. -/
structure Port where
  Name : String
  Type' : Int
deriving DecidableEq, Repr

/-- A single D-Bus wire value: the runtime types the decoder dispatches on.
`float64` carries the IEEE-754 bit pattern opaquely.  `portsList` is Go's
`[][]interface{}` (tuple elements are again wire values); `propMap` is a
nested `map[string]dbus.Variant` as an association list. -/
inductive WireValue where
  | string (s : String)
  | uint32 (n : Nat)
  | int32 (i : Int)
  | uint64 (n : Nat)
  | float64 (bits : Nat)
  | bool (b : Bool)
  | objectPaths (ps : List String)
  | portsList (ss : List (List WireValue))
  | propMap (m : List (String × WireValue))

/-- The Go type name printed by `%T`, used by `valueParser.Int`'s error. -/
def goTypeName : WireValue → String
  | .string _ => "string"
  | .uint32 _ => "uint32"
  | .int32 _ => "int32"
  | .uint64 _ => "uint64"
  | .float64 _ => "float64"
  | .bool _ => "bool"
  | .objectPaths _ => "[]dbus.ObjectPath"
  | .portsList _ => "[][]interface \x7b\x7d"
  | .propMap _ => "map[string]dbus.Variant"

def WireValue.isString : WireValue → Bool
  | .string _ => true
  | _ => false

def WireValue.isUint32 : WireValue → Bool
  | .uint32 _ => true
  | _ => false

def WireValue.isInt32 : WireValue → Bool
  | .int32 _ => true
  | _ => false

def WireValue.isUint64 : WireValue → Bool
  | .uint64 _ => true
  | _ => false

def WireValue.isFloat64 : WireValue → Bool
  | .float64 _ => true
  | _ => false

def WireValue.isBool : WireValue → Bool
  | .bool _ => true
  | _ => false

def WireValue.isObjectPaths : WireValue → Bool
  | .objectPaths _ => true
  | _ => false

def WireValue.isPortsList : WireValue → Bool
  | .portsList _ => true
  | _ => false

def WireValue.isPropMap : WireValue → Bool
  | .propMap _ => true
  | _ => false

/-- Go `valueParser` (valueparser.go): one wrapped wire value plus the sticky
session error.  Go mutates the receiver; here every accessor returns the
result together with the updated session. -/
structure ValueParser where
  v : WireValue
  err : Option GoErr

/-- Go `newValueParser`: wraps a variant's value with no error. -/
def newValueParser (v : WireValue) : ValueParser := { v := v, err := none }

/-! ## net stdlib models

`net.ParseIP`, `net.CIDRMask` and friends are Go standard library, modelled
here with their documented behaviour (Go ≥ 1.17 semantics: dotted-quad
fields have no leading zeros; `ParseIP` yields the 16-byte form for IPv4;
zoned IPv6 addresses are rejected). -/

/-- Decimal digit test. -/
def isDigitCh (c : Char) : Bool := '0' ≤ c && c ≤ '9'

/-- One dotted-quad field: 1-3 digits, value ≤ 255, no leading zero. -/
def v4Field (s : List Char) : Option Nat :=
  if s = [] then none
  else if ¬ s.all isDigitCh then none
  else if s.length > 3 then none
  else if s.length > 1 ∧ s.headI = '0' then none
  else
    let n := s.foldl (fun acc c => acc * 10 + (c.toNat - '0'.toNat)) 0
    if n ≤ 255 then some n else none

/-- The 12-byte v4-in-v6 marker Go places before the 4 IPv4 bytes. -/
def v4Marker : List Nat := [0, 0, 0, 0, 0, 0, 0, 0, 0, 0, 255, 255]

/-- Split a character list on a separator. -/
def splitOnCh (sep : Char) (s : List Char) : List (List Char) :=
  match s with
  | [] => [[]]
  | c :: rest =>
    let r := splitOnCh sep rest
    if c = sep then [] :: r
    else match r with
      | [] => [[c]]
      | g :: gs => (c :: g) :: gs

/-- IPv4 dotted-quad parse: exactly four valid fields. -/
def parseV4 (s : List Char) : Option (List Nat) :=
  match (splitOnCh '.' s).mapM v4Field with
  | some [a, b, c, d] => some (v4Marker ++ [a, b, c, d])
  | _ => none

def isHexCh (c : Char) : Bool :=
  isDigitCh c || ('a' ≤ c && c ≤ 'f') || ('A' ≤ c && c ≤ 'F')

def hexVal (c : Char) : Nat :=
  if isDigitCh c then c.toNat - '0'.toNat
  else if 'a' ≤ c && c ≤ 'f' then c.toNat - 'a'.toNat + 10
  else c.toNat - 'A'.toNat + 10

/-- One IPv6 group: 1-4 hex digits. -/
def v6Group (s : List Char) : Option Nat :=
  if s = [] then none
  else if ¬ s.all isHexCh then none
  else if s.length > 4 then none
  else some (s.foldl (fun acc c => acc * 16 + hexVal c) 0)

/-- Bytes of a gap-free colon-part sequence; the final part may be an
embedded dotted-quad (four bytes), every other part a hex group (two
bytes). -/
def v6TailBytes : List (List Char) → Option (List Nat)
  | [] => some []
  | [p] =>
    if p.contains '.' then (parseV4 p).map (·.drop 12)
    else (v6Group p).map (fun g => [g / 256, g % 256])
  | p :: rest =>
    match v6Group p, v6TailBytes rest with
    | some g, some bs => some (g / 256 :: g % 256 :: bs)
    | _, _ => none

/-- Collapse the two leading empty parts produced by a leading `::` into a
single gap marker; a lone leading colon is invalid. -/
def v6Collapse : List (List Char) → Option (List (List Char))
  | [] :: rest =>
    match rest with
    | [] :: _ => some rest
    | _ => none
  | ps => some ps

/-- IPv6 literal parse (the grammar accepted by `netip.ParseAddr`, zones
excluded since `net.ParseIP` rejects them): hex groups of 1-4 digits
separated by colons, at most one `::`, an optional trailing embedded
dotted-quad, 16 bytes total. -/
def parseV6 (s : List Char) : Option (List Nat) :=
  match v6Collapse (splitOnCh ':' s) with
  | none => none
  | some ps =>
    match v6Collapse ps.reverse with
    | none => none
    | some rps =>
      let parts := rps.reverse
      if parts.countP (fun p => p.isEmpty) > 1 then none
      else
        match parts.findIdx? (fun p => p.isEmpty) with
        | some i =>
          match (parts.take i).mapM v6Group, v6TailBytes (parts.drop (i + 1)) with
          | some preG, some postB =>
            let preB := preG.foldr (fun g acc => g / 256 :: g % 256 :: acc) []
            if preB.length + postB.length ≤ 14 then
              some (preB ++ List.replicate (16 - preB.length - postB.length) 0 ++ postB)
            else none
          | _, _ => none
        | none =>
          match v6TailBytes parts with
          | some bs => if bs.length = 16 then some bs else none
          | none => none

/-- Go `net.ParseIP`: the first separator character decides between the
dotted-quad and the IPv6 grammar; no separator means failure.  IPv4
results are returned in Go's 16-byte v4-in-v6 form. -/
def goParseIP (s : String) : Option (List Nat) :=
  let cs := s.toList
  match cs.find? (fun c => c = '.' || c = ':') with
  | some '.' => parseV4 cs
  | some _ => parseV6 cs
  | none => none

/-- Go `net.CIDRMask(ones, bits)`: a mask byte slice, nil (here `[]`) unless
`bits` is 32 or 128 and `0 ≤ ones ≤ bits`. -/
def goCIDRMask (ones bits : Int) : List Nat :=
  if bits ≠ 32 ∧ bits ≠ 128 then []
  else if ones < 0 ∨ ones > bits then []
  else
    (List.range (bits / 8).toNat).map fun i =>
      let rem : Int := ones - 8 * i
      if rem ≥ 8 then 255
      else if rem ≤ 0 then 0
      else 256 - 2 ^ (8 - rem.toNat)

/-! ## valueParser accessors

Each mirrors one method of `valueParser` in valueparser.go: a no-op once
the session error is set, otherwise a runtime-type check recording the
method's error message on mismatch and returning the Go zero value. -/

/-- Go `valueParser.Bool`. -/
def vpBool (vp : ValueParser) : Bool × ValueParser :=
  match vp.err with
  | some _ => (false, vp)
  | none =>
    match vp.v with
    | .bool b => (b, vp)
    | _ => (false, { vp with err := some "value is not of type bool" })

/-- Go `valueParser.Float64` (the bit pattern is returned opaquely). -/
def vpFloat64 (vp : ValueParser) : Nat × ValueParser :=
  match vp.err with
  | some _ => (0, vp)
  | none =>
    match vp.v with
    | .float64 f => (f, vp)
    | _ => (0, { vp with err := some "value is not of type float64" })

/-- Go `valueParser.Int`: accepts `uint32` or `int32`, yielding a Go `int`. -/
def vpInt (vp : ValueParser) : Int × ValueParser :=
  match vp.err with
  | some _ => (0, vp)
  | none =>
    match vp.v with
    | .uint32 n => ((n : Int), vp)
    | .int32 i => (i, vp)
    | v => (0, { vp with err := some ("value is not a valid integer: " ++ goTypeName v) })

/-- Go `valueParser.IP`: a string that parses as an IP literal; the byte
slice result (`[]` for Go nil). -/
def vpIP (vp : ValueParser) : List Nat × ValueParser :=
  match vp.err with
  | some _ => ([], vp)
  | none =>
    match vp.v with
    | .string s =>
      match goParseIP s with
      | some ip => (ip, vp)
      | none => ([], { vp with err := some ("invalid IP address: \"" ++ s ++ "\"") })
    | _ => ([], { vp with err := some "value for IP is not of type string" })

/-- Go `valueParser.Mask`: an unsigned prefix length combined with the
caller-supplied family bit width. -/
def vpMask (bits : Int) (vp : ValueParser) : List Nat × ValueParser :=
  match vp.err with
  | some _ => ([], vp)
  | none =>
    match vp.v with
    | .uint32 n => (goCIDRMask (n : Int) bits, vp)
    | _ => ([], { vp with err := some "value for IP mask is not of type uint32" })

/-- Go `valueParser.String`. -/
def vpString (vp : ValueParser) : String × ValueParser :=
  match vp.err with
  | some _ => ("", vp)
  | none =>
    match vp.v with
    | .string s => (s, vp)
    | _ => ("", { vp with err := some "value is not of type string" })

/-- Go `valueParser.Uint64`. -/
def vpUint64 (vp : ValueParser) : Nat × ValueParser :=
  match vp.err with
  | some _ => (0, vp)
  | none =>
    match vp.v with
    | .uint64 u => (u, vp)
    | _ => (0, { vp with err := some "value is not of type uint64" })

/-- Go `valueParser.ObjectPaths` (`none` is Go's nil slice). -/
def vpObjectPaths (vp : ValueParser) : Option (List String) × ValueParser :=
  match vp.err with
  | some _ => (none, vp)
  | none =>
    match vp.v with
    | .objectPaths op => (some op, vp)
    | _ => (none, { vp with err := some "value is not an D-Bus object paths slice" })

/-- A well-formed port tuple: `[name string, type uint32]`. -/
def isPortTuple : List WireValue → Bool
  | [.string _, .uint32 _] => true
  | _ => false

/-- The Port built from a well-formed tuple (junk for ill-formed ones,
which callers exclude). -/
def portOfTuple : List WireValue → Port
  | [.string name, .uint32 typ] => { Name := name, Type' := (typ : Int) }
  | _ => { Name := "", Type' := 0 }

/-- The tuple-walking loop inside `valueParser.Ports`: Go appends to a
growing slice and returns nil with the error of the first malformed tuple;
equivalently, the whole list decodes or the first malformed tuple's error
is returned. -/
def portsFromTuples : List (List WireValue) → Except GoErr (List Port)
  | [] => .ok []
  | t :: rest =>
    match t with
    | [a, b] =>
      match a with
      | .string name =>
        match b with
        | .uint32 typ =>
          match portsFromTuples rest with
          | .ok ps => .ok ({ Name := name, Type' := (typ : Int) } :: ps)
          | .error e => .error e
        | _ => .error "invalid port type uint32"
      | _ => .error "invalid port name string"
    | _ => .error "invalid ports list slice"

/-- Go `valueParser.Ports` (`none` is Go's nil slice). -/
def vpPorts (vp : ValueParser) : Option (List Port) × ValueParser :=
  match vp.err with
  | some _ => (none, vp)
  | none =>
    match vp.v with
    | .portsList ss =>
      match portsFromTuples ss with
      | .ok ps => (some ps, vp)
      | .error e => (none, { vp with err := some e })
    | _ => (none, { vp with err := some "value is not a ports list" })

/-- Go `valueParser.Properties` (`none` is Go's nil map). -/
def vpProperties (vp : ValueParser) : Option (List (String × WireValue)) × ValueParser :=
  match vp.err with
  | some _ => (none, vp)
  | none =>
    match vp.v with
    | .propMap ps => (some ps, vp)
    | _ => (none, { vp with err := some "value is not a D-Bus properties map" })

/-! ## The accessor family as data, for session-level claims -/

/-- One accessor method of `valueParser` (the `Mask` accessor carries its
caller-supplied bit-width argument). -/
inductive Accessor where
  | bool
  | float64
  | int
  | ip
  | mask (bits : Int)
  | string
  | uint64
  | objectPaths
  | ports
  | properties

/-- The return value of an accessor call, tagged per accessor. -/
inductive AccResult where
  | rBool (b : Bool)
  | rFloat64 (bits : Nat)
  | rInt (i : Int)
  | rIP (ip : List Nat)
  | rMask (m : List Nat)
  | rString (s : String)
  | rUint64 (u : Nat)
  | rObjectPaths (ps : Option (List String))
  | rPorts (ps : Option (List Port))
  | rProperties (ps : Option (List (String × WireValue)))

/-- Dispatch an accessor call to the corresponding method. -/
def runAcc : Accessor → ValueParser → AccResult × ValueParser
  | .bool, vp => let (r, vp) := vpBool vp; (.rBool r, vp)
  | .float64, vp => let (r, vp) := vpFloat64 vp; (.rFloat64 r, vp)
  | .int, vp => let (r, vp) := vpInt vp; (.rInt r, vp)
  | .ip, vp => let (r, vp) := vpIP vp; (.rIP r, vp)
  | .mask bits, vp => let (r, vp) := vpMask bits vp; (.rMask r, vp)
  | .string, vp => let (r, vp) := vpString vp; (.rString r, vp)
  | .uint64, vp => let (r, vp) := vpUint64 vp; (.rUint64 r, vp)
  | .objectPaths, vp => let (r, vp) := vpObjectPaths vp; (.rObjectPaths r, vp)
  | .ports, vp => let (r, vp) := vpPorts vp; (.rPorts r, vp)
  | .properties, vp => let (r, vp) := vpProperties vp; (.rProperties r, vp)

/-- The Go zero value of each accessor's target type (nil slices/maps as
`none`, nil byte slices as `[]`). -/
def zeroOf : Accessor → AccResult
  | .bool => .rBool false
  | .float64 => .rFloat64 0
  | .int => .rInt 0
  | .ip => .rIP []
  | .mask _ => .rMask []
  | .string => .rString ""
  | .uint64 => .rUint64 0
  | .objectPaths => .rObjectPaths none
  | .ports => .rPorts none
  | .properties => .rProperties none

/-- Whether the wire value's runtime type matches the accessor's expected
type (the type assertion each method performs; `Int` accepts either 32-bit
integer type). -/
def typeMatches : Accessor → WireValue → Bool
  | .bool, v => v.isBool
  | .float64, v => v.isFloat64
  | .int, v => v.isUint32 || v.isInt32
  | .ip, v => v.isString
  | .mask _, v => v.isUint32
  | .string, v => v.isString
  | .uint64, v => v.isUint64
  | .objectPaths, v => v.isObjectPaths
  | .ports, v => v.isPortsList
  | .properties, v => v.isPropMap

/-- Run a chain of accessor calls on one decode session. -/
def runAccs : List Accessor → ValueParser → ValueParser
  | [], vp => vp
  | a :: rest, vp => runAccs rest (runAcc a vp).2

/-- The error of the first accessor in the chain that records one when run
on a fresh session over `v` (accessors never change the wrapped value). -/
def firstAccErr : List Accessor → WireValue → Option GoErr
  | [], _ => none
  | a :: rest, v =>
    match (runAcc a (newValueParser v)).2.err with
    | some e => some e
    | none => firstAccErr rest v

theorem runAcc_preserves_v (a : Accessor) (vp : ValueParser) :
    (runAcc a vp).2.v = vp.v := by
  cases a <;>
    simp only [runAcc, vpBool, vpFloat64, vpInt, vpIP, vpMask, vpString, vpUint64,
      vpObjectPaths, vpPorts, vpProperties] <;>
    rcases vp with ⟨v, _ | e⟩ <;>
    cases v <;>
    simp_all <;>
    split <;>
    simp

theorem runAcc_sticky (a : Accessor) (vp : ValueParser) (e : GoErr)
    (h : vp.err = some e) : runAcc a vp = (zeroOf a, vp) := by
  cases a <;>
    simp only [runAcc, zeroOf, vpBool, vpFloat64, vpInt, vpIP, vpMask, vpString, vpUint64,
      vpObjectPaths, vpPorts, vpProperties, h]

theorem runAcc_mismatch (a : Accessor) (v : WireValue)
    (h : typeMatches a v = false) :
    (runAcc a (newValueParser v)).1 = zeroOf a
      ∧ (runAcc a (newValueParser v)).2.err ≠ none := by
  cases a <;> cases v <;> simp_all [runAcc, zeroOf, typeMatches, newValueParser,
    WireValue.isBool, WireValue.isFloat64, WireValue.isUint32, WireValue.isInt32,
    WireValue.isString, WireValue.isUint64, WireValue.isObjectPaths,
    WireValue.isPortsList, WireValue.isPropMap,
    vpBool, vpFloat64, vpInt, vpIP, vpMask, vpString, vpUint64,
    vpObjectPaths, vpPorts, vpProperties]

theorem runAccs_sticky (accs : List Accessor) (vp : ValueParser) (e : GoErr)
    (h : vp.err = some e) : runAccs accs vp = vp := by
  induction accs with
  | nil => rfl
  | cons a rest ih => rw [runAccs, runAcc_sticky a vp e h]; exact ih

theorem runAccs_firstErr (accs : List Accessor) (v : WireValue) :
    (runAccs accs (newValueParser v)).err = firstAccErr accs v := by
  induction accs with
  | nil => rfl
  | cons a rest ih =>
    rw [runAccs, firstAccErr]
    rcases h : (runAcc a (newValueParser v)).2.err with _ | e
    · have hv : (runAcc a (newValueParser v)).2 = newValueParser v := by
        have := runAcc_preserves_v a (newValueParser v)
        rcases h2 : (runAcc a (newValueParser v)).2 with ⟨v', e'⟩
        simp [newValueParser]
        constructor
        · rw [h2] at this; simpa [newValueParser] using this
        · rw [h2] at h; simpa using h
      rw [hv]; exact ih
    · rw [runAccs_sticky rest _ e h]; exact h

/-- Claim C1. For every decode session and every accessor: a runtime-type
mismatch yields the accessor's zero value and a non-nil session error; once
the session error is set every accessor call returns the zero value without
modifying the session; hence over any chain of accessor calls the session's
final error is the first one encountered. -/
theorem c1_accessor_mismatch_and_sticky_first_error :
    (∀ (a : Accessor) (v : WireValue), typeMatches a v = false →
      (runAcc a (newValueParser v)).1 = zeroOf a
        ∧ (runAcc a (newValueParser v)).2.err ≠ none)
    ∧ (∀ (a : Accessor) (vp : ValueParser) (e : GoErr), vp.err = some e →
      runAcc a vp = (zeroOf a, vp))
    ∧ (∀ (accs : List Accessor) (v : WireValue),
      (runAccs accs (newValueParser v)).err = firstAccErr accs v) :=
  ⟨runAcc_mismatch, runAcc_sticky, runAccs_firstErr⟩

/-- Witness for C1 at concrete inputs: the `String` accessor on a `uint32`
value errors and returns `""`; a session whose error is already set is
untouched by a further `Bool` accessor call. -/
theorem c1_witness :
    typeMatches .string (.uint32 7) = false
    ∧ ((runAcc .string (newValueParser (.uint32 7))).1 = zeroOf .string
        ∧ (runAcc .string (newValueParser (.uint32 7))).2.err ≠ none)
    ∧ runAcc .bool ⟨.uint32 7, some "boom"⟩ = (zeroOf .bool, ⟨.uint32 7, some "boom"⟩)
    ∧ (runAccs [.string, .bool] (newValueParser (.uint32 7))).err
        = firstAccErr [.string, .bool] (.uint32 7) :=
  ⟨rfl,
    c1_accessor_mismatch_and_sticky_first_error.1 .string (.uint32 7) rfl,
    c1_accessor_mismatch_and_sticky_first_error.2.1 .bool ⟨.uint32 7, some "boom"⟩ "boom" rfl,
    c1_accessor_mismatch_and_sticky_first_error.2.2 [.string, .bool] (.uint32 7)⟩

theorem portsFromTuples_ok (ss : List (List WireValue))
    (h : ∀ t ∈ ss, isPortTuple t = true) :
    portsFromTuples ss = .ok (ss.map portOfTuple) := by
  induction ss with
  | nil => rfl
  | cons t rest ih =>
    have ht := h t (List.mem_cons_self ..)
    have hr := ih fun t' ht' => h t' (List.mem_cons_of_mem _ ht')
    rcases t with _ | ⟨a, _ | ⟨b, _ | ⟨c, t4⟩⟩⟩
    · simp [isPortTuple] at ht
    · cases a <;> simp [isPortTuple] at ht
    · cases a <;> cases b <;> simp [isPortTuple] at ht
      simp [portsFromTuples, hr, portOfTuple]
    · cases a <;> simp [isPortTuple] at ht

theorem portsFromTuples_error (ss : List (List WireValue))
    (h : ∃ t ∈ ss, isPortTuple t = false) :
    ∃ e, portsFromTuples ss = .error e := by
  induction ss with
  | nil => simp at h
  | cons t rest ih =>
    rcases t with _ | ⟨a, _ | ⟨b, _ | ⟨c, t4⟩⟩⟩
    · exact ⟨"invalid ports list slice", rfl⟩
    · exact ⟨"invalid ports list slice", rfl⟩
    · cases a
      case string s =>
        cases b
        case uint32 n =>
          rcases h with ⟨t', ht', hbad⟩
          rcases List.mem_cons.mp ht' with rfl | hmem
          · simp [isPortTuple] at hbad
          · rcases ih ⟨t', hmem, hbad⟩ with ⟨e, he⟩
            exact ⟨e, by simp [portsFromTuples, he]⟩
        all_goals exact ⟨"invalid port type uint32", rfl⟩
      all_goals exact ⟨"invalid port name string", rfl⟩
    · exact ⟨"invalid ports list slice", rfl⟩

/-- Claim C5. The `Ports` accessor is atomic: a tuple list containing any
malformed tuple (wrong length, non-string name, non-uint32 type code)
yields a nil result and a session error — never a partial list; a list of
only well-formed tuples decodes to one `Port` per tuple in input order with
no error. -/
theorem c5_ports_atomic (ss : List (List WireValue)) :
    ((∃ t ∈ ss, isPortTuple t = false) →
      (vpPorts (newValueParser (.portsList ss))).1 = none
        ∧ (vpPorts (newValueParser (.portsList ss))).2.err ≠ none)
    ∧ ((∀ t ∈ ss, isPortTuple t = true) →
      vpPorts (newValueParser (.portsList ss))
        = (some (ss.map portOfTuple), newValueParser (.portsList ss))) := by
  constructor
  · intro h
    rcases portsFromTuples_error ss h with ⟨e, he⟩
    simp [vpPorts, newValueParser, he]
  · intro h
    simp [vpPorts, newValueParser, portsFromTuples_ok ss h]

/-- Witness for C5: one good and one bad tuple fails atomically; two good
tuples decode in order. -/
theorem c5_witness :
    ((∃ t ∈ [[WireValue.string "wwan0", WireValue.uint32 2], [WireValue.string "x"]],
        isPortTuple t = false)
      ∧ (vpPorts (newValueParser (.portsList
            [[WireValue.string "wwan0", WireValue.uint32 2], [WireValue.string "x"]]))).1 = none
      ∧ (vpPorts (newValueParser (.portsList
            [[WireValue.string "wwan0", WireValue.uint32 2], [WireValue.string "x"]]))).2.err ≠ none)
    ∧ vpPorts (newValueParser (.portsList
          [[WireValue.string "cdc-wdm0", WireValue.uint32 7],
            [WireValue.string "ttyUSB0", WireValue.uint32 4]]))
        = (some [{ Name := "cdc-wdm0", Type' := 7 }, { Name := "ttyUSB0", Type' := 4 }],
            newValueParser (.portsList
              [[WireValue.string "cdc-wdm0", WireValue.uint32 7],
                [WireValue.string "ttyUSB0", WireValue.uint32 4]])) := by
  have hbad := (c5_ports_atomic
      [[WireValue.string "wwan0", WireValue.uint32 2], [WireValue.string "x"]]).1
    (by exact ⟨[WireValue.string "x"], by simp, rfl⟩)
  have hok := (c5_ports_atomic
      [[WireValue.string "cdc-wdm0", WireValue.uint32 7],
        [WireValue.string "ttyUSB0", WireValue.uint32 4]]).2
    (by intro t ht; simp only [List.mem_cons, List.not_mem_nil, or_false] at ht; rcases ht with rfl | rfl <;> rfl)
  exact ⟨⟨⟨[WireValue.string "x"], by simp, rfl⟩, hbad⟩, by rw [hok]; rfl⟩

/-! ## Signal decoding (`Signal`, `parseSignal`, `parseLTESignal`) -/

/-- The anonymous LTE sub-struct of `Signal` (four float64 fields, carried
as bit patterns). -/
structure LTEData where
  RSRP : Nat := 0
  RSRQ : Nat := 0
  RSSI : Nat := 0
  SNR : Nat := 0
deriving DecidableEq, Repr

/-- Go `Signal`: the sampling rate is a `time.Duration` in nanoseconds. -/
structure Signal where
  Rate : Int := 0
  LTE : LTEData := {}
deriving DecidableEq, Repr

/-- Go `parseLTESignal`: per key, a fresh decode session, a `Float64` accessor
for the four known keys, and an error check after every key. -/
def parseLTESignal : List (String × WireValue) → LTEData → Except GoErr LTEData
  | [], l => .ok l
  | (k, v) :: rest, l =>
    let vp := newValueParser v
    let (l, vp) :=
      if k = "rsrp" then
        let (f, vp) := vpFloat64 vp; ({ l with RSRP := f }, vp)
      else if k = "rsrq" then
        let (f, vp) := vpFloat64 vp; ({ l with RSRQ := f }, vp)
      else if k = "rssi" then
        let (f, vp) := vpFloat64 vp; ({ l with RSSI := f }, vp)
      else if k = "snr" then
        let (f, vp) := vpFloat64 vp; ({ l with SNR := f }, vp)
      else (l, vp)
    match vp.err with
    | some e => .error ("error parsing LTE signal key \"" ++ k ++ "\": " ++ e)
    | none => parseLTESignal rest l

/-- The loop of `parseSignal`: dispatch on the wire value's runtime type
first, then on the key name; `Rate` is seconds scaled to a duration. -/
def parseSignalLoop : List (String × WireValue) → Signal → Except GoErr Signal
  | [], s => .ok s
  | (k, v) :: rest, s =>
    match v with
    | .uint32 n =>
      parseSignalLoop rest (if k = "Rate" then { s with Rate := (n : Int) * 1000000000 } else s)
    | .propMap m =>
      match (if k = "Lte" then (parseLTESignal m s.LTE).map (fun l => { s with LTE := l })
             else .ok s) with
      | .error e => .error e
      | .ok s' => parseSignalLoop rest s'
    | _ => parseSignalLoop rest s

/-- Go `parseSignal`. -/
def parseSignal (ps : List (String × WireValue)) : Except GoErr Signal :=
  parseSignalLoop ps {}

theorem vpFloat64_not_float (v : WireValue) (hv : v.isFloat64 = false) :
    vpFloat64 (newValueParser v)
      = (0, { v := v, err := some "value is not of type float64" }) := by
  cases v <;> simp_all [vpFloat64, newValueParser, WireValue.isFloat64]

theorem parseLTESignal_error (m : List (String × WireValue)) (l : LTEData) (e : GoErr)
    (h : parseLTESignal m l = .error e) :
    ∃ p ∈ m, (p.1 = "rsrp" ∨ p.1 = "rsrq" ∨ p.1 = "rssi" ∨ p.1 = "snr")
      ∧ p.2.isFloat64 = false := by
  induction m generalizing l with
  | nil => simp [parseLTESignal] at h
  | cons p rest ih =>
    obtain ⟨k, v⟩ := p
    by_cases hm : k = "rsrp" ∨ k = "rsrq" ∨ k = "rssi" ∨ k = "snr"
    · cases hv : v.isFloat64
      · exact ⟨(k, v), List.mem_cons_self .., hm, hv⟩
      · obtain ⟨b, rfl⟩ : ∃ b, v = .float64 b := by
          cases v <;> simp_all [WireValue.isFloat64]
        rcases hm with hk | hk | hk | hk <;>
          subst hk <;>
          simp only [parseLTESignal, vpFloat64, newValueParser, if_true, if_false,
            reduceIte] at h <;>
          [skip; skip; skip; skip] <;>
          first
          | (rcases ih _ h with ⟨p', hp', hrest⟩
             exact ⟨p', List.mem_cons_of_mem _ hp', hrest⟩)
    · push_neg at hm
      obtain ⟨h1, h2, h3, h4⟩ := hm
      simp only [parseLTESignal, h1, h2, h3, h4, if_false, reduceIte, newValueParser] at h
      rcases ih _ h with ⟨p', hp', hrest⟩
      exact ⟨p', List.mem_cons_of_mem _ hp', hrest⟩

/-- Claim C10. `parseSignal` dispatches on the wire value's runtime type
before the key name: any top-level value that is neither a `uint32` nor a
nested variant map is skipped without recording an error (in particular a
wrongly-typed `Rate` or a non-map `Lte` leaves its field untouched), and
the only failure path is a malformed float entry inside a well-typed `Lte`
sub-map. -/
theorem c10_signal_type_dispatch :
    (∀ (k : String) (v : WireValue) (rest : List (String × WireValue)) (s : Signal),
      v.isUint32 = false → v.isPropMap = false →
      parseSignalLoop ((k, v) :: rest) s = parseSignalLoop rest s)
    ∧ (∀ (ps : List (String × WireValue)) (e : GoErr),
      parseSignal ps = .error e →
      ∃ m, ("Lte", WireValue.propMap m) ∈ ps
        ∧ ∃ p ∈ m, (p.1 = "rsrp" ∨ p.1 = "rsrq" ∨ p.1 = "rssi" ∨ p.1 = "snr")
            ∧ p.2.isFloat64 = false) := by
  constructor
  · intro k v rest s h1 h2
    cases v <;> simp_all [parseSignalLoop, WireValue.isUint32, WireValue.isPropMap]
  · intro ps e h
    rw [parseSignal] at h
    generalize hs : ({} : Signal) = s0 at h
    clear hs
    induction ps generalizing s0 with
    | nil => simp [parseSignalLoop] at h
    | cons p rest ih =>
      obtain ⟨k, v⟩ := p
      cases v with
      | uint32 n =>
        rw [parseSignalLoop] at h
        rcases ih _ h with ⟨m, hm, hp⟩
        exact ⟨m, List.mem_cons_of_mem _ hm, hp⟩
      | propMap m =>
        by_cases hk : k = "Lte"
        · subst hk
          rw [parseSignalLoop] at h
          simp only [if_true, reduceIte] at h
          rcases hlte : parseLTESignal m s0.LTE with e' | l
          · rw [hlte] at h
            simp only [Except.map] at h
            exact ⟨m, List.mem_cons_self .., parseLTESignal_error m s0.LTE e' hlte⟩
          · rw [hlte] at h
            simp only [Except.map] at h
            rcases ih _ h with ⟨m', hm', hp⟩
            exact ⟨m', List.mem_cons_of_mem _ hm', hp⟩
        · rw [parseSignalLoop] at h
          simp only [hk, if_false, reduceIte] at h
          rcases ih _ h with ⟨m', hm', hp⟩
          exact ⟨m', List.mem_cons_of_mem _ hm', hp⟩
      | string s' =>
        simp only [parseSignalLoop] at h
        rcases ih _ h with ⟨m', hm', hp⟩
        exact ⟨m', List.mem_cons_of_mem _ hm', hp⟩
      | int32 i =>
        simp only [parseSignalLoop] at h
        rcases ih _ h with ⟨m', hm', hp⟩
        exact ⟨m', List.mem_cons_of_mem _ hm', hp⟩
      | uint64 n =>
        simp only [parseSignalLoop] at h
        rcases ih _ h with ⟨m', hm', hp⟩
        exact ⟨m', List.mem_cons_of_mem _ hm', hp⟩
      | float64 b =>
        simp only [parseSignalLoop] at h
        rcases ih _ h with ⟨m', hm', hp⟩
        exact ⟨m', List.mem_cons_of_mem _ hm', hp⟩
      | bool b =>
        simp only [parseSignalLoop] at h
        rcases ih _ h with ⟨m', hm', hp⟩
        exact ⟨m', List.mem_cons_of_mem _ hm', hp⟩
      | objectPaths op =>
        simp only [parseSignalLoop] at h
        rcases ih _ h with ⟨m', hm', hp⟩
        exact ⟨m', List.mem_cons_of_mem _ hm', hp⟩
      | portsList ss =>
        simp only [parseSignalLoop] at h
        rcases ih _ h with ⟨m', hm', hp⟩
        exact ⟨m', List.mem_cons_of_mem _ hm', hp⟩

/-- Witness for C10: a string-typed `Rate` is skipped; a bad float inside
`Lte` is the failure that `parseSignal` reports. -/
theorem c10_witness :
    (WireValue.isUint32 (.string "ten") = false
      ∧ WireValue.isPropMap (.string "ten") = false
      ∧ parseSignalLoop [("Rate", WireValue.string "ten")] {} = parseSignalLoop [] {})
    ∧ (parseSignal [("Lte", WireValue.propMap [("rsrp", WireValue.string "x")])]
        = .error "error parsing LTE signal key \"rsrp\": value is not of type float64"
      ∧ ∃ m, ("Lte", WireValue.propMap m)
            ∈ [("Lte", WireValue.propMap [("rsrp", WireValue.string "x")])]
          ∧ ∃ p ∈ m, (p.1 = "rsrp" ∨ p.1 = "rsrq" ∨ p.1 = "rssi" ∨ p.1 = "snr")
              ∧ p.2.isFloat64 = false) :=
  ⟨⟨rfl, rfl,
    c10_signal_type_dispatch.1 "Rate" (.string "ten") [] {} rfl rfl⟩,
    rfl,
    c10_signal_type_dispatch.2 [("Lte", WireValue.propMap [("rsrp", WireValue.string "x")])]
      "error parsing LTE signal key \"rsrp\": value is not of type float64" rfl⟩

/-! ## Modem decoding (`Modem.parse`) -/

/-- Go `Modem`'s decoded fields (enumerations `PowerState`/`State` are Go
`int`-backed and stored opaquely as integers; `bearers` is the unexported
object-path list; `Index` is set by the caller, never by `parse`). -/
structure Modem where
  Index : Int := 0
  CarrierConfiguration : String := ""
  CarrierConfigurationRevision : String := ""
  Device : String := ""
  DeviceIdentifier : String := ""
  EquipmentIdentifier : String := ""
  HardwareRevision : String := ""
  Manufacturer : String := ""
  Model : String := ""
  Plugin : String := ""
  Ports : Option (List Port) := none
  PowerState : Int := 0
  PrimaryPort : String := ""
  Revision : String := ""
  State : Int := 0
  bearers : Option (List String) := none
deriving DecidableEq, Repr

/-- The body of `Modem.parse`'s loop before its error check: a fresh decode
session and a switch on the exact key name, each matched key invoking one
accessor whose result is stored into the corresponding field. -/
def modemStep (k : String) (v : WireValue) (m : Modem) : Modem × ValueParser :=
  let vp := newValueParser v
  if k = "Bearers" then
    let (r, vp) := vpObjectPaths vp; ({ m with bearers := r }, vp)
  else if k = "CarrierConfiguration" then
    let (r, vp) := vpString vp; ({ m with CarrierConfiguration := r }, vp)
  else if k = "CarrierConfigurationRevision" then
    let (r, vp) := vpString vp; ({ m with CarrierConfigurationRevision := r }, vp)
  else if k = "Device" then
    let (r, vp) := vpString vp; ({ m with Device := r }, vp)
  else if k = "DeviceIdentifier" then
    let (r, vp) := vpString vp; ({ m with DeviceIdentifier := r }, vp)
  else if k = "EquipmentIdentifier" then
    let (r, vp) := vpString vp; ({ m with EquipmentIdentifier := r }, vp)
  else if k = "HardwareRevision" then
    let (r, vp) := vpString vp; ({ m with HardwareRevision := r }, vp)
  else if k = "Manufacturer" then
    let (r, vp) := vpString vp; ({ m with Manufacturer := r }, vp)
  else if k = "Model" then
    let (r, vp) := vpString vp; ({ m with Model := r }, vp)
  else if k = "Plugin" then
    let (r, vp) := vpString vp; ({ m with Plugin := r }, vp)
  else if k = "Ports" then
    let (r, vp) := vpPorts vp; ({ m with Ports := r }, vp)
  else if k = "PowerState" then
    let (r, vp) := vpInt vp; ({ m with PowerState := r }, vp)
  else if k = "PrimaryPort" then
    let (r, vp) := vpString vp; ({ m with PrimaryPort := r }, vp)
  else if k = "Revision" then
    let (r, vp) := vpString vp; ({ m with Revision := r }, vp)
  else if k = "State" then
    let (r, vp) := vpInt vp; ({ m with State := r }, vp)
  else (m, vp)

/-- Go `Modem.parse`: the switch body per key, then the per-key error check
wrapping the offending key's name. -/
def Modem.parse : List (String × WireValue) → Modem → Except GoErr Modem
  | [], m => .ok m
  | (k, v) :: rest, m =>
    match modemStep k v m with
    | (m, vp) =>
      match vp.err with
      | some e => .error ("error parsing \"" ++ k ++ "\": " ++ e)
      | none => Modem.parse rest m

/-- The 15 property keys `Modem.parse` recognizes. -/
def modemKeys : List String :=
  ["Bearers", "CarrierConfiguration", "CarrierConfigurationRevision", "Device",
    "DeviceIdentifier", "EquipmentIdentifier", "HardwareRevision", "Manufacturer",
    "Model", "Plugin", "Ports", "PowerState", "PrimaryPort", "Revision", "State"]

/-- Whether a wire value has the runtime type the accessor for key `k`
expects (any type is acceptable under an unrecognized key, which no
accessor ever touches). -/
def wellTypedModemVal (k : String) (v : WireValue) : Bool :=
  if k = "Bearers" then v.isObjectPaths
  else if k = "CarrierConfiguration" then v.isString
  else if k = "CarrierConfigurationRevision" then v.isString
  else if k = "Device" then v.isString
  else if k = "DeviceIdentifier" then v.isString
  else if k = "EquipmentIdentifier" then v.isString
  else if k = "HardwareRevision" then v.isString
  else if k = "Manufacturer" then v.isString
  else if k = "Model" then v.isString
  else if k = "Plugin" then v.isString
  else if k = "Ports" then
    match v with
    | .portsList ss => ss.all isPortTuple
    | _ => false
  else if k = "PowerState" then v.isUint32 || v.isInt32
  else if k = "PrimaryPort" then v.isString
  else if k = "Revision" then v.isString
  else if k = "State" then v.isUint32 || v.isInt32
  else true

/-- The spec's reading of one `Modem.parse` loop iteration (§8 round-trip):
a recognized key updates exactly the one corresponding field with the
decoded value; an unrecognized key changes nothing. -/
def specModemUpdate (k : String) (v : WireValue) (m : Modem) : Modem :=
  if k = "Bearers" then { m with bearers := (vpObjectPaths (newValueParser v)).1 }
  else if k = "CarrierConfiguration" then
    { m with CarrierConfiguration := (vpString (newValueParser v)).1 }
  else if k = "CarrierConfigurationRevision" then
    { m with CarrierConfigurationRevision := (vpString (newValueParser v)).1 }
  else if k = "Device" then { m with Device := (vpString (newValueParser v)).1 }
  else if k = "DeviceIdentifier" then
    { m with DeviceIdentifier := (vpString (newValueParser v)).1 }
  else if k = "EquipmentIdentifier" then
    { m with EquipmentIdentifier := (vpString (newValueParser v)).1 }
  else if k = "HardwareRevision" then
    { m with HardwareRevision := (vpString (newValueParser v)).1 }
  else if k = "Manufacturer" then { m with Manufacturer := (vpString (newValueParser v)).1 }
  else if k = "Model" then { m with Model := (vpString (newValueParser v)).1 }
  else if k = "Plugin" then { m with Plugin := (vpString (newValueParser v)).1 }
  else if k = "Ports" then { m with Ports := (vpPorts (newValueParser v)).1 }
  else if k = "PowerState" then { m with PowerState := (vpInt (newValueParser v)).1 }
  else if k = "PrimaryPort" then { m with PrimaryPort := (vpString (newValueParser v)).1 }
  else if k = "Revision" then { m with Revision := (vpString (newValueParser v)).1 }
  else if k = "State" then { m with State := (vpInt (newValueParser v)).1 }
  else m

theorem modemStep_wellTyped (k : String) (v : WireValue) (m : Modem)
    (h : wellTypedModemVal k v = true) :
    modemStep k v m = (specModemUpdate k v m, newValueParser v) := by
  by_cases h1 : k = "Bearers"
  case pos => subst h1; cases v <;> first | rfl | simp_all [wellTypedModemVal, WireValue.isObjectPaths, WireValue.isString, WireValue.isUint32, WireValue.isInt32]
  by_cases h2 : k = "CarrierConfiguration"
  case pos => subst h2; cases v <;> first | rfl | simp_all [wellTypedModemVal, WireValue.isObjectPaths, WireValue.isString, WireValue.isUint32, WireValue.isInt32]
  by_cases h3 : k = "CarrierConfigurationRevision"
  case pos => subst h3; cases v <;> first | rfl | simp_all [wellTypedModemVal, WireValue.isObjectPaths, WireValue.isString, WireValue.isUint32, WireValue.isInt32]
  by_cases h4 : k = "Device"
  case pos => subst h4; cases v <;> first | rfl | simp_all [wellTypedModemVal, WireValue.isObjectPaths, WireValue.isString, WireValue.isUint32, WireValue.isInt32]
  by_cases h5 : k = "DeviceIdentifier"
  case pos => subst h5; cases v <;> first | rfl | simp_all [wellTypedModemVal, WireValue.isObjectPaths, WireValue.isString, WireValue.isUint32, WireValue.isInt32]
  by_cases h6 : k = "EquipmentIdentifier"
  case pos => subst h6; cases v <;> first | rfl | simp_all [wellTypedModemVal, WireValue.isObjectPaths, WireValue.isString, WireValue.isUint32, WireValue.isInt32]
  by_cases h7 : k = "HardwareRevision"
  case pos => subst h7; cases v <;> first | rfl | simp_all [wellTypedModemVal, WireValue.isObjectPaths, WireValue.isString, WireValue.isUint32, WireValue.isInt32]
  by_cases h8 : k = "Manufacturer"
  case pos => subst h8; cases v <;> first | rfl | simp_all [wellTypedModemVal, WireValue.isObjectPaths, WireValue.isString, WireValue.isUint32, WireValue.isInt32]
  by_cases h9 : k = "Model"
  case pos => subst h9; cases v <;> first | rfl | simp_all [wellTypedModemVal, WireValue.isObjectPaths, WireValue.isString, WireValue.isUint32, WireValue.isInt32]
  by_cases h10 : k = "Plugin"
  case pos => subst h10; cases v <;> first | rfl | simp_all [wellTypedModemVal, WireValue.isObjectPaths, WireValue.isString, WireValue.isUint32, WireValue.isInt32]
  by_cases h11 : k = "Ports"
  case pos =>
    subst h11
    obtain ⟨ss, rfl, hall⟩ : ∃ ss, v = .portsList ss ∧ ∀ t ∈ ss, isPortTuple t = true := by
      cases v
      case portsList ss =>
        exact ⟨ss, rfl, by simpa [wellTypedModemVal, List.all_eq_true] using h⟩
      all_goals simp_all [wellTypedModemVal]
    simp [modemStep, specModemUpdate, vpPorts, newValueParser, portsFromTuples_ok ss hall]
  by_cases h12 : k = "PowerState"
  case pos => subst h12; cases v <;> first | rfl | simp_all [wellTypedModemVal, WireValue.isObjectPaths, WireValue.isString, WireValue.isUint32, WireValue.isInt32]
  by_cases h13 : k = "PrimaryPort"
  case pos => subst h13; cases v <;> first | rfl | simp_all [wellTypedModemVal, WireValue.isObjectPaths, WireValue.isString, WireValue.isUint32, WireValue.isInt32]
  by_cases h14 : k = "Revision"
  case pos => subst h14; cases v <;> first | rfl | simp_all [wellTypedModemVal, WireValue.isObjectPaths, WireValue.isString, WireValue.isUint32, WireValue.isInt32]
  by_cases h15 : k = "State"
  case pos => subst h15; cases v <;> first | rfl | simp_all [wellTypedModemVal, WireValue.isObjectPaths, WireValue.isString, WireValue.isUint32, WireValue.isInt32]
  simp [modemStep, specModemUpdate, h1, h2, h3, h4, h5, h6, h7, h8, h9, h10, h11,
    h12, h13, h14, h15]

theorem modemStep_unrecognized (k : String) (v : WireValue) (m : Modem)
    (h : k ∉ modemKeys) : modemStep k v m = (m, newValueParser v) := by
  simp only [modemKeys, List.mem_cons, List.not_mem_nil, or_false, not_or] at h
  obtain ⟨h1, h2, h3, h4, h5, h6, h7, h8, h9, h10, h11, h12, h13, h14, h15⟩ := h
  simp [modemStep, h1, h2, h3, h4, h5, h6, h7, h8, h9, h10, h11, h12, h13, h14, h15]

/-- Claim C9. For property maps whose values are well-typed for their keys,
`Modem.parse` is the fold of single-field updates: each recognized key
updates exactly its one field with the decoded value, keys that are absent
leave their fields at the zero value of the starting record, and an
unrecognized key is skipped entirely — no error is raised due to its
presence. -/
theorem c9_modem_roundtrip :
    (∀ (ps : List (String × WireValue)) (m : Modem),
      (∀ p ∈ ps, wellTypedModemVal p.1 p.2 = true) →
      Modem.parse ps m = .ok (ps.foldl (fun m p => specModemUpdate p.1 p.2 m) m))
    ∧ (∀ (k : String) (v : WireValue) (rest : List (String × WireValue)) (m : Modem),
      k ∉ modemKeys → Modem.parse ((k, v) :: rest) m = Modem.parse rest m) := by
  constructor
  · intro ps
    induction ps with
    | nil => intro m h; rfl
    | cons p rest ih =>
      intro m h
      obtain ⟨k, v⟩ := p
      rw [List.foldl_cons, Modem.parse,
        modemStep_wellTyped k v m (h _ (List.mem_cons_self ..))]
      exact ih _ fun p hp => h p (List.mem_cons_of_mem _ hp)
  · intro k v rest m h
    rw [Modem.parse, modemStep_unrecognized k v m h]
    rfl

/-- Witness for C9: a map with one supported key and one unrecognized key
decodes without error into exactly one field update. -/
theorem c9_witness :
    (∀ p ∈ [("Device", WireValue.string "X"), ("FancyNewKey", WireValue.bool true)],
      wellTypedModemVal p.1 p.2 = true)
    ∧ Modem.parse [("Device", WireValue.string "X"), ("FancyNewKey", WireValue.bool true)] {}
        = .ok { Device := "X" }
    ∧ ("FancyNewKey" ∉ modemKeys
      ∧ Modem.parse [("FancyNewKey", WireValue.bool true)] ({ Device := "X" } : Modem)
          = Modem.parse [] ({ Device := "X" } : Modem)) := by
  refine ⟨by decide, ?_, by decide, ?_⟩
  · rw [c9_modem_roundtrip.1 _ {} (by decide)]; rfl
  · exact c9_modem_roundtrip.2 "FancyNewKey" (WireValue.bool true) [] _ (by decide)

/-! ## IP configuration decoding (`IPConfig`, `parseIPConfig`)

`sort.SliceStable(c.DNS, func(i, j) { bytes.Compare... == -1 })` sorts the
DNS byte slices into ascending lexicographic order.  Ties under the
comparator are literally equal byte lists, so any sort producing an
ascending permutation yields the same output as Go's stable sort; it is
modelled by insertion sort under `bytesLE` below. -/

/-- Go `bytes.Compare` on byte slices (a nil slice is `[]`). -/
def bytesCompare : List Nat → List Nat → Ordering
  | [], [] => .eq
  | [], _ :: _ => .lt
  | _ :: _, [] => .gt
  | a :: as, b :: bs =>
    if a < b then .lt else if b < a then .gt else bytesCompare as bs

/-- The non-strict order induced by `bytes.Compare`. -/
def bytesLE (a b : List Nat) : Prop := bytesCompare a b ≠ .gt

instance bytesLE.decRel : DecidableRel bytesLE := fun _ _ => by
  unfold bytesLE; infer_instance

theorem bytesCompare_eq_iff : ∀ a b : List Nat, bytesCompare a b = .eq ↔ a = b
  | [], [] => by simp [bytesCompare]
  | [], _ :: _ => by simp [bytesCompare]
  | _ :: _, [] => by simp [bytesCompare]
  | a :: as, b :: bs => by
    simp only [bytesCompare]
    rcases Nat.lt_trichotomy a b with h | h | h
    · simp [h, Nat.ne_of_lt h]
    · subst h
      simp [lt_irrefl, bytesCompare_eq_iff as bs]
    · simp [h, Nat.lt_asymm h, (Nat.ne_of_lt h).symm]

theorem bytesCompare_swap : ∀ a b : List Nat, bytesCompare b a = (bytesCompare a b).swap
  | [], [] => rfl
  | [], _ :: _ => rfl
  | _ :: _, [] => rfl
  | a :: as, b :: bs => by
    simp only [bytesCompare]
    rcases Nat.lt_trichotomy a b with h | h | h
    · simp [h, Nat.lt_asymm h, Ordering.swap]
    · subst h
      simp [lt_irrefl, bytesCompare_swap as bs]
    · simp [h, Nat.lt_asymm h, Ordering.swap]

instance bytesLE.isTotal : IsTotal (List Nat) bytesLE := by
  constructor
  intro a b
  unfold bytesLE
  rw [bytesCompare_swap a b]
  rcases h : bytesCompare a b <;> simp [Ordering.swap, h]

instance bytesLE.isAntisymm : IsAntisymm (List Nat) bytesLE := by
  constructor
  intro a b h1 h2
  unfold bytesLE at h1 h2
  rw [bytesCompare_swap a b] at h2
  rcases h : bytesCompare a b <;> rw [h] at h1 h2
  · simp [Ordering.swap] at h2
  · exact (bytesCompare_eq_iff a b).mp h
  · simp at h1

instance bytesLE.isTrans : IsTrans (List Nat) bytesLE := by
  constructor
  intro a b c
  unfold bytesLE
  induction a generalizing b c with
  | nil => intro _ _ h; cases c <;> simp [bytesCompare] at h
  | cons x as ih =>
    intro h1 h2 h3
    rcases b with _ | ⟨y, bs⟩
    · exact h1 (by simp [bytesCompare])
    rcases c with _ | ⟨z, cs⟩
    · exact h2 (by simp [bytesCompare])
    simp only [bytesCompare] at h1 h2 h3
    rcases Nat.lt_trichotomy x y with hxy | hxy | hxy
    · rcases Nat.lt_trichotomy y z with hyz | hyz | hyz
      · simp [Nat.lt_trans hxy hyz] at h3
      · subst hyz; simp [hxy] at h3
      · exact h2 (by simp [hyz, Nat.lt_asymm hyz])
    · subst hxy
      rcases Nat.lt_trichotomy x z with hyz | hyz | hyz
      · simp [hyz] at h3
      · subst hyz
        simp only [lt_irrefl, if_false, reduceIte] at h1 h2 h3
        exact ih bs cs h1 h2 h3
      · exact h2 (by simp [hyz, Nat.lt_asymm hyz])
    · exact h1 (by simp [hxy, Nat.lt_asymm hxy])

/-- The DNS list sort at the end of `parseIPConfig`. -/
def sortDNS (l : List (List Nat)) : List (List Nat) :=
  List.insertionSort bytesLE l

theorem sortDNS_perm_eq {l1 l2 : List (List Nat)} (h : l1.Perm l2) :
    sortDNS l1 = sortDNS l2 :=
  List.eq_of_perm_of_sorted
    ((List.perm_insertionSort bytesLE l1).trans
      (h.trans (List.perm_insertionSort bytesLE l2).symm))
    (List.sorted_insertionSort bytesLE l1)
    (List.sorted_insertionSort bytesLE l2)

/-- Go `net.IPNet`: address and mask byte slices (`[]` for nil). -/
structure IPNet where
  IP : List Nat := []
  Mask : List Nat := []
deriving DecidableEq, Repr

/-- Go `IPConfig` (bearer.go): `Address` is a `*net.IPNet` (`none` for nil);
DNS entries are IP byte slices; `Method` is the `BearerIPMethod` integer;
`MTU` a Go `int`. -/
structure IPConfig where
  Address : Option IPNet := none
  DNS : List (List Nat) := []
  Gateway : List Nat := []
  Method : Int := 0
  MTU : Int := 0
deriving DecidableEq, Repr

/-- The body of `parseIPConfig`'s loop: a fresh decode session per key and
a switch on the key name.  The session's accumulated error is never
consulted — the loop contains no `vp.Err()` check, so only the accessor's
result value (`.1`) is used and the error slot is discarded. -/
def ipConfigStep (bits : Int) (k : String) (v : WireValue) (c : IPConfig) : IPConfig :=
  let vp := newValueParser v
  if k = "address" then
    let base := match c.Address with
      | none => ({} : IPNet)
      | some a => a
    { c with Address := some { base with IP := (vpIP vp).1 } }
  else if k = "dns1" ∨ k = "dns2" ∨ k = "dns3" then
    { c with DNS := c.DNS ++ [(vpIP vp).1] }
  else if k = "gateway" then { c with Gateway := (vpIP vp).1 }
  else if k = "method" then { c with Method := (vpInt vp).1 }
  else if k = "mtu" then { c with MTU := (vpInt vp).1 }
  else if k = "prefix" then
    let base := match c.Address with
      | none => ({} : IPNet)
      | some a => a
    { c with Address := some { base with Mask := (vpMask bits vp).1 } }
  else c

def parseIPConfigLoop (bits : Int) : List (String × WireValue) → IPConfig → IPConfig
  | [], c => c
  | (k, v) :: rest, c => parseIPConfigLoop bits rest (ipConfigStep bits k v c)

/-- Go `parseIPConfig`: a `none` properties argument is a nil Go map (ranging
over it iterates zero times); the mask size is 32 or 128 by address
family; the DNS list is sorted before returning.  The only return path of
the source function is `return &c, nil` — its error result is always nil. -/
def parseIPConfig (ps : Option (List (String × WireValue))) (ip6 : Bool) :
    Except GoErr IPConfig :=
  let bits : Int := if ip6 then 128 else 32
  let c := parseIPConfigLoop bits (ps.getD []) {}
  .ok { c with DNS := sortDNS c.DNS }

/-- Claim C2, code bug in `parseIPConfig`: the claim says a recorded
accessor error is returned, naming the offending key; but the loop never
consults `vp.Err()`, so with `{"address": "foo"}` the `IP` accessor
records an error and the decoder nevertheless returns a nil error and a
zero-valued address — the malformed value is silently dropped. -/
theorem c2_parseIPConfig_drops_error :
    (vpIP (newValueParser (.string "foo"))).2.err = some "invalid IP address: \"foo\""
    ∧ parseIPConfig (some [("address", WireValue.string "foo")]) false
        = .ok { Address := some { IP := [], Mask := [] }, DNS := [], Gateway := [],
                Method := 0, MTU := 0 } :=
  ⟨rfl, rfl⟩

/-- The wire values stored under the three DNS keys, in iteration order. -/
def dnsValuesOf (ps : List (String × WireValue)) : List WireValue :=
  (ps.filter fun p => decide (p.1 = "dns1" ∨ p.1 = "dns2" ∨ p.1 = "dns3")).map Prod.snd

theorem ipConfigStep_DNS_other (bits : Int) (k : String) (v : WireValue) (c : IPConfig)
    (hd : ¬(k = "dns1" ∨ k = "dns2" ∨ k = "dns3")) :
    (ipConfigStep bits k v c).DNS = c.DNS := by
  unfold ipConfigStep
  split_ifs with h1 h2 h3 h4 h5 <;> simp_all

theorem parseIPConfigLoop_DNS (bits : Int) :
    ∀ (ps : List (String × WireValue)) (c : IPConfig),
      (parseIPConfigLoop bits ps c).DNS
        = c.DNS ++ (dnsValuesOf ps).map fun v => (vpIP (newValueParser v)).1
  | [], c => by simp [parseIPConfigLoop, dnsValuesOf]
  | (k, v) :: rest, c => by
    rw [parseIPConfigLoop, parseIPConfigLoop_DNS bits rest]
    by_cases hd : k = "dns1" ∨ k = "dns2" ∨ k = "dns3"
    · have hka : k ≠ "address" := by rcases hd with h | h | h <;> subst h <;> decide
      have hstep : (ipConfigStep bits k v c).DNS
          = c.DNS ++ [(vpIP (newValueParser v)).1] := by
        unfold ipConfigStep
        simp [hka, hd]
      rw [hstep]
      simp [dnsValuesOf, hd, List.filter_cons]
    · rw [ipConfigStep_DNS_other bits k v c hd]
      simp [dnsValuesOf, hd, List.filter_cons]

/-- Claim C6. The decoded DNS list is a deterministic function of the
multiset of wire values supplied under the `dns1`/`dns2`/`dns3` keys: any
two property maps carrying the same DNS values in any assignment and any
iteration order decode to the identical (byte-ascending sorted) list. -/
theorem c6_dns_deterministic (ps1 ps2 : List (String × WireValue)) (ip6 : Bool)
    (h : (dnsValuesOf ps1).Perm (dnsValuesOf ps2)) (c1 c2 : IPConfig)
    (h1 : parseIPConfig (some ps1) ip6 = .ok c1)
    (h2 : parseIPConfig (some ps2) ip6 = .ok c2) :
    c1.DNS = c2.DNS := by
  unfold parseIPConfig at h1 h2
  have e1 := (Except.ok.injEq _ _).mp h1
  have e2 := (Except.ok.injEq _ _).mp h2
  subst e1
  subst e2
  simp only [Option.getD]
  rw [parseIPConfigLoop_DNS, parseIPConfigLoop_DNS]
  simp only [List.nil_append]
  exact sortDNS_perm_eq (h.map _)

/-- Witness for C6: two maps assigning the same two DNS addresses to the
`dns1`/`dns2` keys in opposite order decode to the identical sorted list. -/
theorem c6_witness :
    (dnsValuesOf [("dns1", WireValue.string "192.0.2.1"), ("dns2", WireValue.string "192.0.2.0")]).Perm
      (dnsValuesOf [("dns1", WireValue.string "192.0.2.0"), ("dns2", WireValue.string "192.0.2.1")])
    ∧ parseIPConfig
        (some [("dns1", WireValue.string "192.0.2.1"), ("dns2", WireValue.string "192.0.2.0")]) false
        = .ok { Address := none,
                DNS := [[0, 0, 0, 0, 0, 0, 0, 0, 0, 0, 255, 255, 192, 0, 2, 0],
                        [0, 0, 0, 0, 0, 0, 0, 0, 0, 0, 255, 255, 192, 0, 2, 1]],
                Gateway := [], Method := 0, MTU := 0 }
    ∧ parseIPConfig
        (some [("dns1", WireValue.string "192.0.2.0"), ("dns2", WireValue.string "192.0.2.1")]) false
        = .ok { Address := none,
                DNS := [[0, 0, 0, 0, 0, 0, 0, 0, 0, 0, 255, 255, 192, 0, 2, 0],
                        [0, 0, 0, 0, 0, 0, 0, 0, 0, 0, 255, 255, 192, 0, 2, 1]],
                Gateway := [], Method := 0, MTU := 0 }
    ∧ ({ Address := none,
         DNS := [[0, 0, 0, 0, 0, 0, 0, 0, 0, 0, 255, 255, 192, 0, 2, 0],
                 [0, 0, 0, 0, 0, 0, 0, 0, 0, 0, 255, 255, 192, 0, 2, 1]],
         Gateway := [], Method := 0, MTU := 0 } : IPConfig).DNS
        = ({ Address := none,
             DNS := [[0, 0, 0, 0, 0, 0, 0, 0, 0, 0, 255, 255, 192, 0, 2, 0],
                     [0, 0, 0, 0, 0, 0, 0, 0, 0, 0, 255, 255, 192, 0, 2, 1]],
             Gateway := [], Method := 0, MTU := 0 } : IPConfig).DNS := by
  refine ⟨List.Perm.swap _ _ _, rfl, rfl, ?_⟩
  exact c6_dns_deterministic
    [("dns1", WireValue.string "192.0.2.1"), ("dns2", WireValue.string "192.0.2.0")]
    [("dns1", WireValue.string "192.0.2.0"), ("dns2", WireValue.string "192.0.2.1")]
    false (by exact List.Perm.swap _ _ _) _ _ rfl rfl

/-- The key set of a property map. -/
def keysOf (ps : List (String × WireValue)) : List String := ps.map Prod.fst

theorem ipConfigStep_Address_other (bits : Int) (k : String) (v : WireValue) (c : IPConfig)
    (h1 : k ≠ "address") (h2 : k ≠ "prefix") :
    (ipConfigStep bits k v c).Address = c.Address := by
  unfold ipConfigStep
  split_ifs <;> simp_all

theorem parseIPConfigLoop_Address_stable (bits : Int) :
    ∀ (ps : List (String × WireValue)) (c : IPConfig),
      "address" ∉ keysOf ps → "prefix" ∉ keysOf ps →
      (parseIPConfigLoop bits ps c).Address = c.Address
  | [], _, _, _ => rfl
  | (k, v) :: rest, c, ha, hp => by
    simp only [keysOf, List.map_cons, List.mem_cons, not_or] at ha hp
    rw [parseIPConfigLoop,
      parseIPConfigLoop_Address_stable bits rest _ ha.2 hp.2,
      ipConfigStep_Address_other bits k v c (Ne.symm ha.1) (Ne.symm hp.1)]

theorem parseIPConfigLoop_prefix_only (bits : Int) :
    ∀ (ps : List (String × WireValue)) (c : IPConfig) (n : Nat),
      c.Address = none → (keysOf ps).Nodup → "address" ∉ keysOf ps →
      ("prefix", WireValue.uint32 n) ∈ ps →
      (parseIPConfigLoop bits ps c).Address
        = some { IP := [], Mask := goCIDRMask (n : Int) bits }
  | [], _, _, _, _, _, hmem => absurd hmem (List.not_mem_nil _)
  | (k, v) :: rest, c, n, hc, hnd, ha, hmem => by
    simp only [keysOf, List.map_cons] at hnd ha
    rw [List.nodup_cons] at hnd
    rw [List.mem_cons, not_or] at ha
    by_cases hk : k = "prefix"
    · subst hk
      have hv : v = WireValue.uint32 n := by
        rcases List.mem_cons.mp hmem with heq | hmem'
        · exact (congrArg Prod.snd heq).symm
        · exact absurd (List.mem_map_of_mem Prod.fst hmem') hnd.1
      subst hv
      rw [parseIPConfigLoop]
      have hstep : ipConfigStep bits "prefix" (WireValue.uint32 n) c
          = { c with Address := some { IP := [], Mask := goCIDRMask (n : Int) bits } } := by
        unfold ipConfigStep
        rw [hc]
        rfl
      rw [hstep,
        parseIPConfigLoop_Address_stable bits rest _ ha.2 (by simpa [keysOf] using hnd.1)]
    · have hmem' : ("prefix", WireValue.uint32 n) ∈ rest := by
        rcases List.mem_cons.mp hmem with heq | h' 
        · exact absurd (congrArg Prod.fst heq).symm hk
        · exact h'
      have hca : (ipConfigStep bits k v c).Address = none := by
        rw [ipConfigStep_Address_other bits k v c (Ne.symm ha.1) hk, hc]
      rw [parseIPConfigLoop]
      exact parseIPConfigLoop_prefix_only bits rest _ n hca hnd.2 ha.2 hmem'

theorem parseIPConfigLoop_address_only (bits : Int) :
    ∀ (ps : List (String × WireValue)) (c : IPConfig) (s : String),
      c.Address = none → (keysOf ps).Nodup → "prefix" ∉ keysOf ps →
      ("address", WireValue.string s) ∈ ps →
      (parseIPConfigLoop bits ps c).Address
        = some { IP := (vpIP (newValueParser (.string s))).1, Mask := [] }
  | [], _, _, _, _, _, hmem => absurd hmem (List.not_mem_nil _)
  | (k, v) :: rest, c, s, hc, hnd, hp, hmem => by
    simp only [keysOf, List.map_cons] at hnd hp
    rw [List.nodup_cons] at hnd
    rw [List.mem_cons, not_or] at hp
    by_cases hk : k = "address"
    · subst hk
      have hv : v = WireValue.string s := by
        rcases List.mem_cons.mp hmem with heq | hmem'
        · exact (congrArg Prod.snd heq).symm
        · exact absurd (List.mem_map_of_mem Prod.fst hmem') hnd.1
      subst hv
      rw [parseIPConfigLoop]
      have hstep : ipConfigStep bits "address" (WireValue.string s) c
          = { c with Address
                := some { IP := (vpIP (newValueParser (.string s))).1, Mask := [] } } := by
        unfold ipConfigStep
        rw [hc]
        rfl
      rw [hstep,
        parseIPConfigLoop_Address_stable bits rest _ (by simpa [keysOf] using hnd.1) hp.2]
    · have hmem' : ("address", WireValue.string s) ∈ rest := by
        rcases List.mem_cons.mp hmem with heq | h' 
        · exact absurd (congrArg Prod.fst heq).symm hk
        · exact h'
      have hca : (ipConfigStep bits k v c).Address = none := by
        rw [ipConfigStep_Address_other bits k v c hk (Ne.symm hp.1), hc]
      rw [parseIPConfigLoop]
      exact parseIPConfigLoop_address_only bits rest _ s hca hnd.2 hp.2 hmem'

/-- Claim C7. `parseIPConfig` tolerates partial arrival of the address/prefix
pair: a map with a well-typed `prefix` key and no `address` key (or vice
versa) decodes without error to a config whose `Address` carries only the
supplied sub-field — only the mask, or only the IP. -/
theorem c7_partial_address_or_mask :
    (∀ (ps : List (String × WireValue)) (ip6 : Bool) (n : Nat),
      (keysOf ps).Nodup → ("prefix", WireValue.uint32 n) ∈ ps →
      "address" ∉ keysOf ps →
      ∃ c, parseIPConfig (some ps) ip6 = .ok c
        ∧ c.Address = some { IP := [], Mask := goCIDRMask (n : Int) (if ip6 then 128 else 32) })
    ∧ (∀ (ps : List (String × WireValue)) (ip6 : Bool) (s : String),
      (keysOf ps).Nodup → ("address", WireValue.string s) ∈ ps →
      "prefix" ∉ keysOf ps →
      ∃ c, parseIPConfig (some ps) ip6 = .ok c
        ∧ c.Address = some { IP := (vpIP (newValueParser (.string s))).1, Mask := [] }) := by
  constructor
  · intro ps ip6 n hnd hmem ha
    exact ⟨_, rfl,
      parseIPConfigLoop_prefix_only (if ip6 then 128 else 32) ps {} n rfl hnd ha hmem⟩
  · intro ps ip6 s hnd hmem hp
    exact ⟨_, rfl,
      parseIPConfigLoop_address_only (if ip6 then 128 else 32) ps {} s rfl hnd hp hmem⟩

/-- Witness for C7: a prefix without an address yields a mask-only
address; an address without a prefix yields an IP-only address. -/
theorem c7_witness :
    (∃ c, parseIPConfig
        (some [("prefix", WireValue.uint32 24), ("gateway", WireValue.string "192.0.2.1")]) false
        = .ok c ∧ c.Address = some { IP := [], Mask := goCIDRMask 24 (if false then 128 else 32) })
    ∧ (∃ c, parseIPConfig (some [("address", WireValue.string "192.0.2.10")]) true
        = .ok c ∧ c.Address
            = some { IP := (vpIP (newValueParser (.string "192.0.2.10"))).1, Mask := [] }) :=
  ⟨c7_partial_address_or_mask.1
      [("prefix", WireValue.uint32 24), ("gateway", WireValue.string "192.0.2.1")] false 24
      (by decide) (List.mem_cons_self ..) (by decide),
    c7_partial_address_or_mask.2 [("address", WireValue.string "192.0.2.10")] true "192.0.2.10"
      (by decide) (List.mem_cons_self ..) (by decide)⟩

/-! ## Bearer decoding (`Bearer.parse`, `Modem.Bearers`) -/

/-- Go `Bearer`'s decoded fields (`IPTimeout` is a `time.Duration` in
nanoseconds; `Index` is derived from the object path, not from
properties). -/
structure Bearer where
  Index : Int := 0
  Connected : Bool := false
  Interface : String := ""
  IPTimeout : Int := 0
  IPv4Config : Option IPConfig := none
  IPv6Config : Option IPConfig := none
  Suspended : Bool := false
deriving DecidableEq, Repr

/-- The body of `Bearer.parse`'s loop before its per-key error check; the
`Ip4Config`/`Ip6Config` cases return early if `parseIPConfig` errors
(`isIPv4 = false`, `isIPv6 = true` in the source). -/
def bearerStep (k : String) (v : WireValue) (b : Bearer) :
    Except GoErr (Bearer × ValueParser) :=
  let vp := newValueParser v
  if k = "Connected" then
    let (r, vp) := vpBool vp; .ok ({ b with Connected := r }, vp)
  else if k = "Interface" then
    let (r, vp) := vpString vp; .ok ({ b with Interface := r }, vp)
  else if k = "IpTimeout" then
    let (r, vp) := vpInt vp; .ok ({ b with IPTimeout := r * 1000000000 }, vp)
  else if k = "Ip4Config" then
    let (ps, vp) := vpProperties vp
    match parseIPConfig ps false with
    | .error e => .error ("error parsing IPv4 config: " ++ e)
    | .ok c => .ok ({ b with IPv4Config := some c }, vp)
  else if k = "Ip6Config" then
    let (ps, vp) := vpProperties vp
    match parseIPConfig ps true with
    | .error e => .error ("error parsing IPv6 config: " ++ e)
    | .ok c => .ok ({ b with IPv6Config := some c }, vp)
  else if k = "Suspended" then
    let (r, vp) := vpBool vp; .ok ({ b with Suspended := r }, vp)
  else .ok (b, vp)

/-- Go `Bearer.parse`: switch body per key, then the per-key error check. -/
def Bearer.parse : List (String × WireValue) → Bearer → Except GoErr Bearer
  | [], b => .ok b
  | (k, v) :: rest, b =>
    match bearerStep k v b with
    | .error e => .error e
    | .ok (b, vp) =>
      match vp.err with
      | some e => .error ("error parsing \"" ++ k ++ "\": " ++ e)
      | none => Bearer.parse rest b

/-- Go `path.Base`: strip trailing slashes, then take everything after the
last slash; empty input gives ".", an all-slash input gives "/". -/
def pathBase (s : String) : String :=
  if s = "" then "."
  else
    let cs := (s.toList.reverse.dropWhile (· == '/')).reverse
    if cs = [] then "/"
    else String.mk (cs.reverse.takeWhile (fun c => c != '/')).reverse

/-- Go `strconv.Atoi`: optional sign, decimal digits only, 64-bit range. -/
def goAtoi (s : String) : Except GoErr Int :=
  let cs := s.toList
  let sign : Int :=
    match cs with
    | '-' :: _ => -1
    | _ => 1
  let digits :=
    match cs with
    | '+' :: rest => rest
    | '-' :: rest => rest
    | _ => cs
  if digits = [] ∨ ¬ digits.all isDigitCh then
    .error ("strconv.Atoi: parsing \"" ++ s ++ "\": invalid syntax")
  else
    let n : Nat := digits.foldl (fun acc c => acc * 10 + (c.toNat - '0'.toNat)) 0
    if (sign = 1 ∧ n ≥ 2 ^ 63) ∨ (sign = -1 ∧ n > 2 ^ 63) then
      .error ("strconv.Atoi: parsing \"" ++ s ++ "\": value out of range")
    else .ok (sign * n)

/-- Go `Modem.Bearers`: per object path, fetch all properties, derive the
index by decimal-parsing the path's trailing segment, then parse the
property map into a `Bearer` carrying that index; the first failure aborts
with no bearer list. -/
def BearersGo (getAll : String → Except GoErr (List (String × WireValue))) :
    List String → Except GoErr (List Bearer)
  | [] => .ok []
  | op :: rest =>
    match getAll op with
    | .error e => .error e
    | .ok ps =>
      match goAtoi (pathBase op) with
      | .error e => .error e
      | .ok idx =>
        match Bearer.parse ps { Index := idx } with
        | .error e => .error e
        | .ok b =>
          match BearersGo getAll rest with
          | .error e => .error e
          | .ok bs => .ok (b :: bs)

theorem bearerStep_Index (k : String) (v : WireValue) (b b' : Bearer) (vp : ValueParser)
    (h : bearerStep k v b = .ok (b', vp)) : b'.Index = b.Index := by
  unfold bearerStep at h
  split_ifs at h <;>
    (injection h with h'
     rw [← (Prod.mk.injEq ..).mp h' |>.1])

theorem Bearer.parse_Index :
    ∀ (ps : List (String × WireValue)) (b b' : Bearer),
      Bearer.parse ps b = .ok b' → b'.Index = b.Index
  | [], b, b', h => by
    injection h with h'
    rw [← h']
  | (k, v) :: rest, b, b', h => by
    rw [Bearer.parse] at h
    rcases hs : bearerStep k v b with e | p <;> rw [hs] at h <;> dsimp only at h
    · exact absurd h (by simp)
    · obtain ⟨b1, vp⟩ := p
      rcases he : vp.err with _ | e <;> rw [he] at h <;> dsimp only at h
      · rw [Bearer.parse_Index rest b1 b' h, bearerStep_Index k v b b1 vp hs]
      · exact absurd h (by simp)

/-- Claim C8. `Modem.Bearers` derives every bearer's `Index` by
decimal-parsing the trailing segment of that bearer's own object path:
in any successful result the i-th bearer's index is the successful
`Atoi` of the i-th path's base (never a property-map value); and if any
supplied path has a non-numeric trailing segment, no bearer list is
returned at all. -/
theorem c8_bearer_index_from_path :
    (∀ (getAll : String → Except GoErr (List (String × WireValue)))
      (ops : List String) (bs : List Bearer),
      BearersGo getAll ops = .ok bs →
      bs.length = ops.length
        ∧ ∀ (i : Nat) (h1 : i < ops.length) (h2 : i < bs.length),
            goAtoi (pathBase (ops.get ⟨i, h1⟩)) = .ok ((bs.get ⟨i, h2⟩).Index))
    ∧ (∀ (getAll : String → Except GoErr (List (String × WireValue)))
      (ops : List String) (op : String) (e : GoErr),
      op ∈ ops → goAtoi (pathBase op) = .error e →
      ∀ bs, BearersGo getAll ops ≠ .ok bs) := by
  constructor
  · intro getAll ops
    induction ops with
    | nil =>
      intro bs h
      injection h with h'
      subst h'
      exact ⟨rfl, fun i h1 _ => absurd h1 (Nat.not_lt_zero i)⟩
    | cons op rest ih =>
      intro bs h
      rw [BearersGo] at h
      rcases hga : getAll op with e | ps <;> rw [hga] at h <;> dsimp only at h
      · exact absurd h (by simp)
      rcases hai : goAtoi (pathBase op) with e | idx <;> rw [hai] at h <;> dsimp only at h
      · exact absurd h (by simp)
      rcases hbp : Bearer.parse ps { Index := idx } with e | b <;> rw [hbp] at h <;>
        dsimp only at h
      · exact absurd h (by simp)
      rcases hr : BearersGo getAll rest with e | bs' <;> rw [hr] at h <;> dsimp only at h
      · exact absurd h (by simp)
      injection h with h'
      subst h'
      obtain ⟨hlen, hidx⟩ := ih bs' hr
      refine ⟨by simp [hlen], ?_⟩
      intro i h1 h2
      match i with
      | 0 =>
        have hb : b.Index = idx := Bearer.parse_Index ps _ b hbp
        simpa [List.get, hb] using hai
      | Nat.succ j =>
        exact hidx j (Nat.lt_of_succ_lt_succ h1) (Nat.lt_of_succ_lt_succ h2)
  · intro getAll ops
    induction ops with
    | nil => intro op e hmem _ _ _; exact absurd hmem (List.not_mem_nil op)
    | cons op' rest ih =>
      intro op e hmem hbad bs h
      rw [BearersGo] at h
      rcases List.mem_cons.mp hmem with rfl | hmem'
      · rcases hga : getAll op with e' | ps <;> rw [hga] at h <;> dsimp only at h
        · exact absurd h (by simp)
        · rw [hbad] at h
          exact absurd h (by simp)
      · rcases hga : getAll op' with e' | ps <;> rw [hga] at h <;> dsimp only at h
        · exact absurd h (by simp)
        rcases hai : goAtoi (pathBase op') with e' | idx <;> rw [hai] at h <;> dsimp only at h
        · exact absurd h (by simp)
        rcases hbp : Bearer.parse ps { Index := idx } with e' | b <;> rw [hbp] at h <;>
          dsimp only at h
        · exact absurd h (by simp)
        rcases hr : BearersGo getAll rest with e' | bs' <;> rw [hr] at h <;> dsimp only at h
        · exact absurd h (by simp)
        exact ih op e hmem' hbad bs' hr

/-- Witness for C8: numeric trailing segments produce indices 0 and 1 for
an empty property map; a non-numeric trailing segment means no bearer list
is ever returned. -/
theorem c8_witness :
    (BearersGo (fun _ => .ok [])
        ["/org/freedesktop/ModemManager1/Bearer/0", "/org/freedesktop/ModemManager1/Bearer/1"]
        = .ok [{ Index := 0 }, { Index := 1 }]
      ∧ ([{ Index := 0 }, { Index := 1 }] : List Bearer).length
          = ["/org/freedesktop/ModemManager1/Bearer/0",
              "/org/freedesktop/ModemManager1/Bearer/1"].length)
    ∧ (goAtoi (pathBase "/org/freedesktop/ModemManager1/Bearer/abc")
        = .error "strconv.Atoi: parsing \"abc\": invalid syntax"
      ∧ ∀ bs, BearersGo (fun _ => .ok []) ["/org/freedesktop/ModemManager1/Bearer/abc"]
          ≠ .ok bs) :=
  ⟨⟨rfl,
    (c8_bearer_index_from_path.1 (fun _ => .ok [])
      ["/org/freedesktop/ModemManager1/Bearer/0", "/org/freedesktop/ModemManager1/Bearer/1"]
      [{ Index := 0 }, { Index := 1 }] rfl).1⟩,
    rfl,
    c8_bearer_index_from_path.2 (fun _ => .ok [])
      ["/org/freedesktop/ModemManager1/Bearer/abc"]
      "/org/freedesktop/ModemManager1/Bearer/abc"
      "strconv.Atoi: parsing \"abc\": invalid syntax" (List.mem_cons_self ..) rfl⟩

/-! ## Error classification (`toNotExist`, `toPermission`) -/

/-- A Go error chain as the classifier sees it: a `dbus.Error` (carrying
its D-Bus name), the `os.ErrNotExist`/`os.ErrPermission` sentinels, a
plain message error, or an error wrapping another (`fmt.Errorf` with
`%w`). -/
inductive GoError where
  | dbusError (name : String)
  | errNotExist
  | errPermission
  | errorString (msg : String)
  | wrapped (msg : String) (inner : GoError)
deriving DecidableEq, Repr

/-- The `Error()` text (a `dbus.Error` with an empty body prints its
name; the sentinel texts are the os package's). -/
def GoError.render : GoError → String
  | .dbusError n => n
  | .errNotExist => "file does not exist"
  | .errPermission => "permission denied"
  | .errorString m => m
  | .wrapped m _ => m

/-- Go `errors.As(err, &derr)` for a `dbus.Error` target: the name of the
first `dbus.Error` in the unwrap chain, if any. -/
def firstDbusName : GoError → Option String
  | .dbusError n => some n
  | .wrapped _ inner => firstDbusName inner
  | _ => none

/-- Go `errors.Is(err, os.ErrNotExist)`. -/
def errorsIsNotExist : GoError → Bool
  | .errNotExist => true
  | .wrapped _ inner => errorsIsNotExist inner
  | _ => false

/-- Go `errors.Is(err, os.ErrPermission)`. -/
def errorsIsPermission : GoError → Bool
  | .errPermission => true
  | .wrapped _ inner => errorsIsPermission inner
  | _ => false

/-- Whether any error in the unwrap chain is a `dbus.Error` with the given
name (the claim's reading of "contains a dbus.Error named ..."). -/
def containsDbusNamed (err : GoError) (name : String) : Bool :=
  match err with
  | .dbusError n => n = name
  | .wrapped _ inner => containsDbusNamed inner name
  | _ => false

/-- The well-known error names (client.go constants). -/
def unknownMethodError : String := "org.freedesktop.DBus.Error.UnknownMethod"

def serviceUnknownError : String := "org.freedesktop.DBus.Error.ServiceUnknown"

def unauthorizedError : String := "org.freedesktop.ModemManager1.Error.Core.Unauthorized"

/-- Go `toNotExist` (client.go): if the chain's first `dbus.Error` has exactly
the supplied name, `fmt.Errorf("not found: %v: %w", err, os.ErrNotExist)`
renders the input error into the message and wraps the sentinel; otherwise
the input error is returned unchanged. -/
def toNotExist (err : GoError) (name : String) : GoError :=
  match firstDbusName err with
  | none => err
  | some n =>
    if n ≠ name then err
    else .wrapped ("not found: " ++ err.render ++ ": file does not exist") .errNotExist

/-- Go `toPermission` (client.go): as `toNotExist`, for the fixed
`Unauthorized` name and the `os.ErrPermission` sentinel. -/
def toPermission (err : GoError) : GoError :=
  match firstDbusName err with
  | none => err
  | some n =>
    if n ≠ unauthorizedError then err
    else .wrapped ("permission denied: " ++ err.render ++ ": permission denied") .errPermission

/-- Claim C3, counterexample. The claim's "if and only if" fails: the input
`fmt.Errorf("ctx: %w", os.ErrNotExist)` contains no `dbus.Error` at all,
yet `toNotExist` (returning it unchanged) still matches `os.ErrNotExist`
under `errors.Is`. -/
theorem c3_counterexample :
    containsDbusNamed (.wrapped "ctx: file does not exist" .errNotExist) serviceUnknownError
        = false
    ∧ errorsIsNotExist
        (toNotExist (.wrapped "ctx: file does not exist" .errNotExist) serviceUnknownError)
        = true :=
  ⟨rfl, rfl⟩

/-- Claim C3 as amended. `toNotExist err name` matches `os.ErrNotExist` iff
the first `dbus.Error` in `err`'s unwrap chain is named exactly `name`, or
`err` already matched `os.ErrNotExist`; on a name match the result wraps
the sentinel and its message contains the original error's text; in every
other case the input is returned unchanged.  `toPermission` behaves the
same way for the fixed `Unauthorized` name and `os.ErrPermission`. -/
theorem c3_amended_classifier (err : GoError) (name : String) :
    (firstDbusName err = some name →
      toNotExist err name
        = .wrapped ("not found: " ++ err.render ++ ": file does not exist") .errNotExist)
    ∧ (firstDbusName err ≠ some name → toNotExist err name = err)
    ∧ (errorsIsNotExist (toNotExist err name) = true
        ↔ firstDbusName err = some name ∨ errorsIsNotExist err = true)
    ∧ (firstDbusName err = some unauthorizedError →
      toPermission err
        = .wrapped ("permission denied: " ++ err.render ++ ": permission denied") .errPermission)
    ∧ (firstDbusName err ≠ some unauthorizedError → toPermission err = err)
    ∧ (errorsIsPermission (toPermission err) = true
        ↔ firstDbusName err = some unauthorizedError ∨ errorsIsPermission err = true) := by
  unfold toNotExist toPermission
  rcases hf : firstDbusName err with _ | n
  · simp [hf]
  · by_cases hn : n = name <;> by_cases hu : n = unauthorizedError <;>
      simp_all [errorsIsNotExist, errorsIsPermission]

/-- Witness for C3 (amended): a bare `dbus.Error` named `ServiceUnknown`
is wrapped into a not-found error by `toNotExist` and left unchanged by
`toPermission`; one named `Unauthorized` is wrapped by `toPermission`. -/
theorem c3_witness :
    (firstDbusName (.dbusError serviceUnknownError) = some serviceUnknownError
      ∧ toNotExist (.dbusError serviceUnknownError) serviceUnknownError
          = .wrapped ("not found: " ++ (GoError.dbusError serviceUnknownError).render
              ++ ": file does not exist") .errNotExist)
    ∧ (firstDbusName (.dbusError serviceUnknownError) ≠ some unauthorizedError
      ∧ toPermission (.dbusError serviceUnknownError) = .dbusError serviceUnknownError)
    ∧ (firstDbusName (.dbusError unauthorizedError) = some unauthorizedError
      ∧ toPermission (.dbusError unauthorizedError)
          = .wrapped ("permission denied: " ++ (GoError.dbusError unauthorizedError).render
              ++ ": permission denied") .errPermission) :=
  ⟨⟨rfl, (c3_amended_classifier (.dbusError serviceUnknownError) serviceUnknownError).1 rfl⟩,
    ⟨by decide,
      (c3_amended_classifier (.dbusError serviceUnknownError) serviceUnknownError).2.2.2.2.1
        (by decide)⟩,
    ⟨rfl, (c3_amended_classifier (.dbusError unauthorizedError) unauthorizedError).2.2.2.1 rfl⟩⟩

/-! ## Network time (`GetNetworkTime`)

`time.Parse`/`time.Date`/`Clock`/`In` are Go standard library; they are
modelled at the level of the documented `time.Time` semantics: a
fixed-zone `time.Time` is an instant (Unix seconds, nanoseconds) plus a
display offset; `Date`/`Clock` return the wall-clock fields in the time's
own zone, which for a freshly parsed in-range RFC 3339 string are the
string's literal fields; `time.Date(..., loc)` builds the instant with the
given fields read in `loc`; `.In` changes only the display zone. -/

/-- The fields of an RFC 3339 timestamp as `time.Parse(time.RFC3339, s)`
accepts them, with the zone offset in seconds (`Z` is 0). -/
structure RFC3339Parts where
  year : Nat
  mon : Nat
  day : Nat
  hour : Nat
  minute : Nat
  sec : Nat
  nanos : Nat
  offset : Int
deriving DecidableEq, Repr

def isLeapYear (y : Nat) : Bool :=
  decide (y % 4 = 0 ∧ (y % 100 ≠ 0 ∨ y % 400 = 0))

def daysInMonth (y m : Nat) : Nat :=
  if m = 2 then (if isLeapYear y then 29 else 28)
  else if m = 4 ∨ m = 6 ∨ m = 9 ∨ m = 11 then 30
  else 31

def digitsToNat (cs : List Char) : Nat :=
  cs.foldl (fun acc c => acc * 10 + (c.toNat - '0'.toNat)) 0

/-- A fixed-width run of decimal digits. -/
def takeDigits (n : Nat) (cs : List Char) : Option (Nat × List Char) :=
  let pre := cs.take n
  if pre.length = n ∧ pre.all isDigitCh then some (digitsToNat pre, cs.drop n) else none

def expectCh (c : Char) : List Char → Option (List Char)
  | x :: rest => if x = c then some rest else none
  | [] => none

/-- An optional fractional second: a `.` must be followed by digits; the
first nine digits scale to nanoseconds. -/
def parseFracThen : List Char → Option (Nat × List Char)
  | '.' :: rest =>
    let ds := rest.takeWhile isDigitCh
    if ds.isEmpty then none
    else some (digitsToNat (ds.take 9) * 10 ^ (9 - (ds.take 9).length), rest.drop ds.length)
  | cs => some (0, cs)

/-- The zone suffix: `Z`, or `±hh:mm`, ending the string. -/
def parseOffset : List Char → Option Int
  | ['Z'] => some 0
  | c :: rest =>
    if c = '+' ∨ c = '-' then
      match takeDigits 2 rest with
      | some (hh, r2) =>
        match r2 with
        | ':' :: r3 =>
          match takeDigits 2 r3 with
          | some (mm, []) =>
            if hh ≤ 23 ∧ mm ≤ 59 then
              some ((if c = '-' then -1 else 1) * ((hh : Int) * 3600 + (mm : Int) * 60))
            else none
          | _ => none
        | _ => none
      | none => none
    else none
  | _ => none

/-- Go `time.Parse(time.RFC3339, s)`, yielding the literal fields and zone
offset, with Go's validity checks on each field. -/
def parseRFC3339 (s : String) : Option RFC3339Parts :=
  (takeDigits 4 s.toList).bind fun (y, r) =>
  (expectCh '-' r).bind fun r =>
  (takeDigits 2 r).bind fun (mo, r) =>
  (expectCh '-' r).bind fun r =>
  (takeDigits 2 r).bind fun (d, r) =>
  (expectCh 'T' r).bind fun r =>
  (takeDigits 2 r).bind fun (hh, r) =>
  (expectCh ':' r).bind fun r =>
  (takeDigits 2 r).bind fun (mi, r) =>
  (expectCh ':' r).bind fun r =>
  (takeDigits 2 r).bind fun (ss, r) =>
  (parseFracThen r).bind fun (ns, r) =>
  (parseOffset r).bind fun off =>
  if 1 ≤ mo ∧ mo ≤ 12 ∧ 1 ≤ d ∧ d ≤ daysInMonth y mo ∧ hh ≤ 23 ∧ mi ≤ 59 ∧ ss ≤ 59 then
    some { year := y, mon := mo, day := d, hour := hh, minute := mi, sec := ss,
           nanos := ns, offset := off }
  else none

/-- Days since 1970-01-01 of a proleptic-Gregorian civil date (the
standard era-based algorithm civil-time code uses). -/
def daysFromCivil (y : Int) (m d : Nat) : Int :=
  let y' : Int := if m ≤ 2 then y - 1 else y
  let era : Int := y'.ediv 400
  let yoe : Int := y' - era * 400
  let mp : Int := if 2 < m then (m : Int) - 3 else (m : Int) + 9
  let doy : Int := (153 * mp + 2).ediv 5 + (d : Int) - 1
  let doe : Int := yoe * 365 + yoe.ediv 4 - yoe.ediv 100 + doy
  era * 146097 + doe - 719468

/-- The UTC instant (Unix seconds) of the literal calendar/clock fields
read as UTC — what `time.Date(y, mon, d, hh, mm, ss, 0, time.UTC)`
constructs. -/
def fieldsAsUTC (p : RFC3339Parts) : Int :=
  daysFromCivil (p.year : Int) p.mon p.day * 86400
    + (p.hour : Int) * 3600 + (p.minute : Int) * 60 + (p.sec : Int)

/-- The instant the wire string denotes directly: the same fields read at
the string's own zone offset — what `time.Parse` itself returns. -/
def wireInstant (p : RFC3339Parts) : Int := fieldsAsUTC p - p.offset

/-- A fixed-zone Go `time.Time`: an instant plus the display offset. -/
structure GoTime where
  unix : Int
  nanos : Nat
  offset : Int
deriving DecidableEq, Repr

/-- The wall clock `(hour, minute, second)` the time displays in its zone
(`time.Time.Clock`). -/
def GoTime.clock (t : GoTime) : Nat × Nat × Nat :=
  let sod := ((t.unix + t.offset).emod 86400).toNat
  (sod / 3600, sod % 3600 / 60, sod % 60)

/-- The decode tail of `GetNetworkTime` after the transport call:
`vp.String()` with its error check; `time.Parse(time.RFC3339, str)`; then
the reinterpretation — take the parsed time's `Date`/`Clock` fields (the
string's literal fields), rebuild them as a UTC instant with nanoseconds
zeroed, and `.In(t.Location())` back into the string's zone, which keeps
that instant and changes only the display offset. -/
def GetNetworkTimeCore (v : WireValue) : Except GoErr GoTime :=
  let vp := newValueParser v
  let (str, vp) := vpString vp
  match vp.err with
  | some e => .error e
  | none =>
    match parseRFC3339 str with
    | none => .error ("parsing time " ++ str ++ " as RFC3339: cannot parse")
    | some p => .ok { unix := fieldsAsUTC p, nanos := 0, offset := p.offset }

/-- Claim C4. For every wire string `time.Parse` accepts, `GetNetworkTime`
returns the instant built from the string's literal fields interpreted as
UTC with nanoseconds discarded, displayed in the string's own fixed zone —
and for any non-zero zone offset this is not the instant the wire string
denotes directly. -/
theorem c4_network_time_reinterprets_as_utc (s : String) (p : RFC3339Parts)
    (h : parseRFC3339 s = some p) :
    GetNetworkTimeCore (.string s)
        = .ok { unix := fieldsAsUTC p, nanos := 0, offset := p.offset }
    ∧ (p.offset ≠ 0 → fieldsAsUTC p ≠ wireInstant p) := by
  constructor
  · simp [GetNetworkTimeCore, vpString, newValueParser, h]
  · intro hoff
    simp only [wireInstant]
    omega

/-- Witness for C4: the wire string `2020-07-15T16:31:02-04:00` yields the
instant 2020-07-15 16:31:02 UTC (Unix 1594830662), displayed as 12:31:02
in the -04:00 zone — four hours away from the instant the wire string
denotes directly. -/
theorem c4_witness :
    parseRFC3339 "2020-07-15T16:31:02-04:00"
        = some { year := 2020, mon := 7, day := 15, hour := 16, minute := 31, sec := 2,
                 nanos := 0, offset := -14400 }
    ∧ GetNetworkTimeCore (.string "2020-07-15T16:31:02-04:00")
        = .ok { unix := 1594830662, nanos := 0, offset := -14400 }
    ∧ GoTime.clock { unix := 1594830662, nanos := 0, offset := -14400 } = (12, 31, 2)
    ∧ fieldsAsUTC { year := 2020, mon := 7, day := 15, hour := 16, minute := 31, sec := 2,
                    nanos := 0, offset := -14400 }
        ≠ wireInstant { year := 2020, mon := 7, day := 15, hour := 16, minute := 31, sec := 2,
                        nanos := 0, offset := -14400 } := by
  have h := c4_network_time_reinterprets_as_utc "2020-07-15T16:31:02-04:00"
    { year := 2020, mon := 7, day := 15, hour := 16, minute := 31, sec := 2,
      nanos := 0, offset := -14400 } rfl
  exact ⟨rfl, h.1.trans (by rfl), by decide, h.2 (by decide)⟩
